import Mathlib

/-
Verification of the student roll-call absentee-report application.

The embedding covers the three source files:
* the `StudentAbsenteeHours` component (session-duration parsing and the
  per-student aggregation of absent hours),
* the `Reports` page (filtering, grouping by field, CSV export, and the
  cache fallback on API failure),
* the PHP endpoint `get_student_absentee_hours.php` (method check and
  error handling around the join query).

JavaScript numbers that can become NaN are modelled by `Option ℚ`
(`none` is NaN); JavaScript `String.prototype.split` is modelled by a
fuel-based executable function with the same semantics for non-empty
separators.
-/

namespace RollCall

/-- A row of the absentee join returned by the backend.  `timeSlot` is
optional because the timetable is attached by a LEFT JOIN, so it can be
null. -/
structure AbsenteeRecord where
  id : String
  studentId : String
  studentName : String
  matricule : String
  fieldName : String
  level : String
  courseTitle : String
  courseCode : String
  timeSlot : Option String
  date : String
  parentName : String
  parentPhone : String
deriving DecidableEq, Repr

/-- A student row as used by the `StudentAbsenteeHours` component. -/
structure Student where
  id : String
  name : String
  matricule : String
  field : String
  level : String
deriving DecidableEq, Repr

/-- A JavaScript number that may be NaN: `none` models NaN, `some q`
models the (exactly represented) numeric value `q`. -/
abbrev JSNum := Option ℚ

/-- JavaScript addition: NaN is absorbing. -/
def jsAdd : JSNum → JSNum → JSNum
  | some a, some b => some (a + b)
  | _, _ => none

/-- JavaScript `Math.max(x, 1)`: NaN in gives NaN out. -/
def jsMaxOne : JSNum → JSNum
  | some a => some (max a 1)
  | none => none

/-- JavaScript `x >= q` comparison: any comparison with NaN is false. -/
def jsGe (x : JSNum) (q : ℚ) : Bool :=
  match x with
  | some a => decide (q ≤ a)
  | none => false

/-- Whether `sep` is a prefix of the character list `s`. -/
def startsWithSep : List Char → List Char → Bool
  | [], _ => true
  | _ :: _, [] => false
  | p :: ps, c :: cs => p == c && startsWithSep ps cs

/-- Fuel-based worker for `jsSplit`.  Each step consumes at least one
character of the input, so fuel `length + 1` suffices. -/
def splitChars (sep : List Char) : ℕ → List Char → List Char → List (List Char)
  | 0, s, acc => [acc.reverse ++ s]
  | _ + 1, [], acc => [acc.reverse]
  | fuel + 1, c :: cs, acc =>
    if startsWithSep sep (c :: cs) then
      acc.reverse :: splitChars sep fuel (List.drop (sep.length - 1) cs) []
    else
      splitChars sep fuel cs (c :: acc)

/-- JavaScript `s.split(sep)` for a non-empty separator: splits at every
leftmost non-overlapping occurrence; an input with no occurrence yields
the one-element list `[s]`, and `""` yields `[""]`. -/
def jsSplit (s sep : String) : List String :=
  (splitChars sep.toList (s.toList.length + 1) s.toList []).map List.asString

/-- Value of a list of decimal digit characters, most significant first. -/
def digitsToNat : List Char → ℕ → ℕ
  | [], acc => acc
  | c :: cs, acc => digitsToNat cs (acc * 10 + (c.toNat - 48))

/-- Parse a non-empty all-digit character list as a natural number, the
way the lenient JavaScript date parser reads a numeric field. -/
def parseNatFromChars (cs : List Char) : Option ℕ :=
  if cs ≠ [] ∧ cs.all Char.isDigit then some (digitsToNat cs 0) else none

/-- Models `new Date("2000-01-01 " + s).getTime()` for the time-of-day
strings used by the timetable: a valid `h:mm` / `hh:mm` string yields
its offset in minutes since midnight, anything else yields `none`,
modelling an Invalid Date (whose time value is NaN). -/
def parseTimeOfDay (s : String) : Option ℕ :=
  match jsSplit s ":" with
  | [hs, ms] =>
    match parseNatFromChars hs.toList, parseNatFromChars ms.toList with
    | some h, some m => if h < 24 ∧ m < 60 then some (h * 60 + m) else none
    | _, _ => none
  | _ => none

/-- `calculateSessionDuration` from the `StudentAbsenteeHours` component.
A falsy slot (null or `""`) returns the default 2.  Otherwise the slot is
split on `" - "`, both parts are parsed as dates on 2000-01-01, and the
difference in hours is clamped below at 1 by `Math.max`.  If either part
fails to parse, the subtraction and `Math.max` propagate NaN (`none`):
nothing in the body throws, so the catch branch returning 2 is dead. -/
def calculateSessionDuration (timeSlot : Option String) : JSNum :=
  match timeSlot with
  | none => some 2
  | some ts =>
    if ts = "" then some 2
    else
      let parts := jsSplit ts " - "
      match (parts.get? 0).bind parseTimeOfDay, (parts.get? 1).bind parseTimeOfDay with
      | some s, some e => jsMaxOne (some (((e : ℚ) - (s : ℚ)) / 60))
      | _, _ => jsMaxOne none

/-- C1.  For every valid time-slot string of the form `"HH:MM - HH:MM"`
(a slot that splits on `" - "` into exactly two parseable times),
`calculateSessionDuration` returns the elapsed time from start to end in
hours, clamped below at 1. -/
theorem C1_valid_slot_duration (ts a b : String) (s e : ℕ)
    (hne : ts ≠ "")
    (hsplit : jsSplit ts " - " = [a, b])
    (ha : parseTimeOfDay a = some s)
    (hb : parseTimeOfDay b = some e) :
    calculateSessionDuration (some ts) = some (max (((e : ℚ) - (s : ℚ)) / 60) 1) := by
  simp [calculateSessionDuration, hne, hsplit, ha, hb, jsMaxOne]

/-- Witness for C1 at the concrete slot `"08:00 - 10:30"`. -/
theorem C1_valid_slot_duration_witness :
    calculateSessionDuration (some "08:00 - 10:30") =
      some (max (((630 : ℚ) - (480 : ℚ)) / 60) 1) :=
  C1_valid_slot_duration "08:00 - 10:30" "08:00" "10:30" 480 630
    (by decide) (by decide) (by decide) (by decide)

/-- C2 (code bug).  The code returns the default 2 only for a missing or
empty slot; on a malformed non-empty slot such as `"invalid"` the `Date`
arithmetic produces NaN (`none`), which `Math.max` propagates, and the
catch branch that would return 2 never runs because nothing throws. -/
theorem C2_malformed_slot_is_nan :
    calculateSessionDuration none = some 2 ∧
    calculateSessionDuration (some "") = some 2 ∧
    calculateSessionDuration (some "invalid") = none ∧
    calculateSessionDuration (some "invalid") ≠ some 2 := by
  refine ⟨rfl, by decide, by decide, by decide⟩

/-- One entry of a student's `absentSessions` list. -/
structure AbsentSession where
  date : String
  course : String
  courseCode : String
  duration : JSNum
  timeSlot : Option String
deriving DecidableEq, Repr

/-- The per-student aggregate produced by `loadAbsenteeHours`. -/
structure StudentAbsenteeHours where
  studentId : String
  studentName : String
  matricule : String
  field : String
  level : String
  totalAbsentHours : JSNum
  absentSessions : List AbsentSession
deriving DecidableEq, Repr

/-- The filter predicate of `loadAbsenteeHours`: an absentee record
belongs to a student when its `studentId` equals the student's id or its
`matricule` equals the student's matricule. -/
def matchesStudent (student : Student) (r : AbsenteeRecord) : Bool :=
  r.studentId == student.id || r.matricule == student.matricule

/-- The per-absence projection built inside `loadAbsenteeHours`. -/
def toAbsentSession (a : AbsenteeRecord) : AbsentSession :=
  { date := a.date
    course := a.courseTitle
    courseCode := a.courseCode
    duration := calculateSessionDuration a.timeSlot
    timeSlot := a.timeSlot }

/-- The body of the `students.map` in `loadAbsenteeHours`: filter the
absentee rows matching this student, map them to sessions, and reduce
their durations starting from 0. -/
def studentEntry (absenteeData : List AbsenteeRecord) (student : Student) :
    StudentAbsenteeHours :=
  let studentAbsences := absenteeData.filter (matchesStudent student)
  let absentSessions := studentAbsences.map toAbsentSession
  let totalAbsentHours := absentSessions.foldl (fun sum s => jsAdd sum s.duration) (some 0)
  { studentId := student.id
    studentName := student.name
    matricule := student.matricule
    field := student.field
    level := student.level
    totalAbsentHours := totalAbsentHours
    absentSessions := absentSessions }

/-- The pure aggregation step of `loadAbsenteeHours`: one entry per
input student. -/
def processAbsenteeHours (students : List Student) (absenteeData : List AbsenteeRecord) :
    List StudentAbsenteeHours :=
  students.map (studentEntry absenteeData)

/-- The JavaScript sum (a `reduce` starting from 0) of the session
durations of a list of absentee records. -/
def jsSumDurations (records : List AbsenteeRecord) : JSNum :=
  (records.map fun r => calculateSessionDuration r.timeSlot).foldl jsAdd (some 0)

/-- C3.  The `totalAbsentHours` of the i-th output entry is the sum of
`calculateSessionDuration` over the time slots of exactly those absentee
records whose `studentId` equals the i-th student's id or whose
`matricule` equals that student's matricule. -/
theorem C3_total_hours_is_sum_of_matching (students : List Student)
    (absenteeData : List AbsenteeRecord) (i : ℕ) (st : Student)
    (out : StudentAbsenteeHours)
    (hst : students[i]? = some st)
    (hout : (processAbsenteeHours students absenteeData)[i]? = some out) :
    out.totalAbsentHours =
      jsSumDurations (absenteeData.filter fun r =>
        r.studentId == st.id || r.matricule == st.matricule) := by
  rw [processAbsenteeHours, List.getElem?_map, hst, Option.map_some'] at hout
  injection hout with h
  subst h
  simp only [studentEntry, jsSumDurations, matchesStudent, List.foldl_map]
  rfl

/-- A sample student used by concrete witnesses. -/
def sampleStudent : Student :=
  ⟨"s1", "Ana", "M1", "CS", "L100"⟩

/-- A sample absentee row matching `sampleStudent`, with a null slot. -/
def sampleRecA : AbsenteeRecord :=
  ⟨"a1", "s1", "Ana", "M1", "CS", "L100", "Algo", "CS101", none, "2024-01-08", "P", "T"⟩

/-- A sample absentee row matching no student in the witnesses. -/
def sampleRecB : AbsenteeRecord :=
  ⟨"a2", "s2", "Bob", "M2", "CS", "L100", "Algo", "CS101", none, "2024-01-08", "P", "T"⟩

/-- Witness for C3: one student, one matching record with a null slot
(duration 2) and one non-matching record. -/
theorem C3_total_hours_is_sum_of_matching_witness :
    (processAbsenteeHours [sampleStudent] [sampleRecA, sampleRecB])[0]? =
      some (studentEntry [sampleRecA, sampleRecB] sampleStudent) ∧
    (studentEntry [sampleRecA, sampleRecB] sampleStudent).totalAbsentHours =
      jsSumDurations ([sampleRecA, sampleRecB].filter fun r =>
        r.studentId == sampleStudent.id || r.matricule == sampleStudent.matricule) :=
  ⟨rfl, C3_total_hours_is_sum_of_matching [sampleStudent] [sampleRecA, sampleRecB] 0
    sampleStudent _ rfl rfl⟩

/-- C8.  The aggregation yields exactly one output entry per input
student, in the input order, and a student with no matching absentee
record gets `totalAbsentHours = 0` and an empty `absentSessions`. -/
theorem C8_one_entry_per_student_in_order (students : List Student)
    (absenteeData : List AbsenteeRecord) :
    (processAbsenteeHours students absenteeData).length = students.length ∧
    ∀ (i : ℕ) (st : Student), students[i]? = some st →
      ∃ out : StudentAbsenteeHours,
        (processAbsenteeHours students absenteeData)[i]? = some out ∧
        out.studentId = st.id ∧ out.studentName = st.name ∧
        out.matricule = st.matricule ∧ out.field = st.field ∧ out.level = st.level ∧
        ((∀ r ∈ absenteeData, ¬(r.studentId = st.id ∨ r.matricule = st.matricule)) →
          out.totalAbsentHours = some 0 ∧ out.absentSessions = []) := by
  constructor
  · simp [processAbsenteeHours]
  · intro i st hst
    refine ⟨studentEntry absenteeData st, ?_, rfl, rfl, rfl, rfl, rfl, ?_⟩
    · rw [processAbsenteeHours, List.getElem?_map, hst, Option.map_some']
    · intro hnone
      have hfil : absenteeData.filter (matchesStudent st) = [] := by
        rw [List.filter_eq_nil_iff]
        intro r hr
        have := hnone r hr
        simp only [matchesStudent, Bool.or_eq_true, beq_iff_eq]
        tauto
      constructor <;> simp [studentEntry, hfil]

/-- Witness for C8 at a concrete student with an empty absentee list. -/
theorem C8_one_entry_per_student_in_order_witness :
    ∃ out, (processAbsenteeHours [sampleStudent] [])[0]? = some out ∧
      out.totalAbsentHours = some 0 ∧ out.absentSessions = [] := by
  obtain ⟨out, hout, _, _, _, _, _, hempty⟩ :=
    (C8_one_entry_per_student_in_order [sampleStudent] []).2 0 sampleStudent rfl
  exact ⟨out, hout, hempty (by simp)⟩

/-- The risk tier displayed for an aggregated absence-hours value. -/
inductive RiskTier where
  | low
  | medium
  | high
  | critical
deriving DecidableEq, Repr

/-- The nested conditional of the risk-level cell in the
`StudentAbsenteeHours` table: `>= 15` critical, else `>= 10` high, else
`>= 5` medium, else low, with JavaScript comparison semantics. -/
def riskTier (h : JSNum) : RiskTier :=
  if jsGe h 15 then .critical
  else if jsGe h 10 then .high
  else if jsGe h 5 then .medium
  else .low

/-- C4.  For every numeric aggregated absence-hours value, the tier is
Critical iff `h ≥ 15`, High iff `10 ≤ h < 15`, Medium iff `5 ≤ h < 10`,
and Low iff `h < 5`: all lower boundaries inclusive. -/
theorem C4_risk_tier_boundaries (q : ℚ) :
    (riskTier (some q) = RiskTier.critical ↔ 15 ≤ q) ∧
    (riskTier (some q) = RiskTier.high ↔ 10 ≤ q ∧ q < 15) ∧
    (riskTier (some q) = RiskTier.medium ↔ 5 ≤ q ∧ q < 10) ∧
    (riskTier (some q) = RiskTier.low ↔ q < 5) := by
  rcases le_or_lt 15 q with h15 | h15
  · have hr : riskTier (some q) = RiskTier.critical := by
      simp only [riskTier, jsGe, decide_eq_true_eq]
      rw [if_pos h15]
    rw [hr]
    refine ⟨?_, ?_, ?_, ?_⟩ <;> simp <;> first | linarith | (intro h; linarith)
  rcases le_or_lt 10 q with h10 | h10
  · have hr : riskTier (some q) = RiskTier.high := by
      simp only [riskTier, jsGe, decide_eq_true_eq]
      rw [if_neg (by linarith), if_pos h10]
    rw [hr]
    refine ⟨?_, ?_, ?_, ?_⟩ <;> simp <;>
      first | linarith | (intro h; linarith) | exact ⟨h10, h15⟩
  rcases le_or_lt 5 q with h5 | h5
  · have hr : riskTier (some q) = RiskTier.medium := by
      simp only [riskTier, jsGe, decide_eq_true_eq]
      rw [if_neg (by linarith), if_neg (by linarith), if_pos h5]
    rw [hr]
    refine ⟨?_, ?_, ?_, ?_⟩ <;> simp <;>
      first | linarith | (intro h; linarith) | exact ⟨h5, h10⟩
  · have hr : riskTier (some q) = RiskTier.low := by
      simp only [riskTier, jsGe, decide_eq_true_eq]
      rw [if_neg (by linarith), if_neg (by linarith), if_neg (by linarith)]
    rw [hr]
    refine ⟨?_, ?_, ?_, ?_⟩ <;> simp <;>
      first | linarith | (intro h; linarith)

/-- Body of an HTTP response from the endpoint: either a JSON object
with a single `error` field, or a JSON array of absentee join rows. -/
inductive HttpBody where
  | errorMsg (msg : String)
  | rows (data : List AbsenteeRecord)
deriving DecidableEq, Repr

/-- An HTTP response: status code and body. -/
structure HttpResponse where
  status : ℕ
  body : HttpBody
deriving DecidableEq, Repr

/-- Outcome of running the join query inside the `try` block: either the
fetched rows, or the message of the thrown exception. -/
inductive QueryOutcome where
  | ok (data : List AbsenteeRecord)
  | err (msg : String)
deriving DecidableEq, Repr

/-- Modelled from the spec: the `sendResponse` helper lives in
`config.php`, which is not among the shown sources; per the spec's
interface section it emits the given JSON body with the given HTTP
status (405 on wrong method, 500 with an error object on query failure)
and ends the request. -/
def sendResponse (status : ℕ) (body : HttpBody) : HttpResponse :=
  ⟨status, body⟩

/-- `get_student_absentee_hours.php`: reject non-GET with 405 (since
`sendResponse` terminates the request); otherwise run the query, echo
the rows on success (status 200), and turn any exception into a 500 with
an error message. -/
def handleGetStudentAbsenteeHours (method : String) (outcome : QueryOutcome) :
    HttpResponse :=
  if method ≠ "GET" then sendResponse 405 (.errorMsg "Method not allowed")
  else
    match outcome with
    | .ok data => ⟨200, .rows data⟩
    | .err msg =>
      sendResponse 500 (.errorMsg ("Failed to fetch student absentee hours: " ++ msg))

/-- C5.  The endpoint answers 405 to every non-GET request, 500 with an
error body whenever the query throws, and otherwise the JSON array of
join rows; being a total function of (method, query outcome), it has no
other behaviour: no retries and no partial results. -/
theorem C5_endpoint_behaviour (method : String) (outcome : QueryOutcome) :
    (method ≠ "GET" →
      handleGetStudentAbsenteeHours method outcome = ⟨405, .errorMsg "Method not allowed"⟩) ∧
    (∀ msg : String, method = "GET" → outcome = .err msg →
      handleGetStudentAbsenteeHours method outcome =
        ⟨500, .errorMsg ("Failed to fetch student absentee hours: " ++ msg)⟩) ∧
    (∀ data : List AbsenteeRecord, method = "GET" → outcome = .ok data →
      handleGetStudentAbsenteeHours method outcome = ⟨200, .rows data⟩) := by
  refine ⟨fun h => ?_, fun msg hm ho => ?_, fun data hm ho => ?_⟩
  · simp [handleGetStudentAbsenteeHours, sendResponse, h]
  · simp [handleGetStudentAbsenteeHours, sendResponse, hm, ho]
  · simp [handleGetStudentAbsenteeHours, hm, ho]

/-- Witness for C5: a POST request is answered 405, a GET with a failing
query is answered 500, and a GET with an empty result is answered 200. -/
theorem C5_endpoint_behaviour_witness :
    handleGetStudentAbsenteeHours "POST" (.ok []) = ⟨405, .errorMsg "Method not allowed"⟩ ∧
    handleGetStudentAbsenteeHours "GET" (.err "boom") =
      ⟨500, .errorMsg ("Failed to fetch student absentee hours: " ++ "boom")⟩ ∧
    handleGetStudentAbsenteeHours "GET" (.ok []) = ⟨200, .rows []⟩ :=
  ⟨(C5_endpoint_behaviour "POST" (.ok [])).1 (by decide),
   (C5_endpoint_behaviour "GET" (.err "boom")).2.1 "boom" rfl rfl,
   (C5_endpoint_behaviour "GET" (.ok [])).2.2 [] rfl rfl⟩

/-- The header row of the exported CSV. -/
def csvHeader : List String :=
  ["Student Name", "Matricule", "Field", "Level", "Course",
   "Parent Name", "Parent Phone", "Date"]

/-- One data row of the exported CSV.  `fmtDate` models the
locale-dependent `new Date(d).toLocaleDateString()`. -/
def csvRow (fmtDate : String → String) (r : AbsenteeRecord) : List String :=
  [r.studentName, r.matricule, r.fieldName, r.level,
   r.courseTitle ++ " (" ++ r.courseCode ++ ")",
   r.parentName, r.parentPhone, fmtDate r.date]

/-- `exportReport` from the Reports page as a list of rows: the header
followed by one row per filtered record. -/
def exportReportRows (fmtDate : String → String) (absentees : List AbsenteeRecord) :
    List (List String) :=
  csvHeader :: absentees.map (csvRow fmtDate)

/-- The CSV text built by `exportReport`: rows joined by commas, lines
joined by newlines. -/
def exportReportCsv (fmtDate : String → String) (absentees : List AbsenteeRecord) :
    String :=
  String.intercalate "\n" ((exportReportRows fmtDate absentees).map (String.intercalate ","))

/-- C6.  The exported CSV has exactly one data row per filtered record
plus one header row, and row `i + 1` lists the columns of record `i` in
the fixed order name, matricule, field, level, course, parent name,
parent phone, date. -/
theorem C6_csv_rows (fmtDate : String → String) (absentees : List AbsenteeRecord) :
    (exportReportRows fmtDate absentees).length = absentees.length + 1 ∧
    (exportReportRows fmtDate absentees)[0]? = some csvHeader ∧
    ∀ (i : ℕ) (r : AbsenteeRecord), absentees[i]? = some r →
      (exportReportRows fmtDate absentees)[i + 1]? =
        some [r.studentName, r.matricule, r.fieldName, r.level,
              r.courseTitle ++ " (" ++ r.courseCode ++ ")",
              r.parentName, r.parentPhone, fmtDate r.date] := by
  refine ⟨by simp [exportReportRows], by simp [exportReportRows], fun i r hr => ?_⟩
  rw [exportReportRows, List.getElem?_cons_succ, List.getElem?_map, hr, Option.map_some']
  rfl

/-- Witness for C6 at a one-record list with the identity date format. -/
theorem C6_csv_rows_witness :
    (exportReportRows id [sampleRecA]).length = 1 + 1 ∧
    (exportReportRows id [sampleRecA])[0 + 1]? =
      some [sampleRecA.studentName, sampleRecA.matricule, sampleRecA.fieldName,
            sampleRecA.level,
            sampleRecA.courseTitle ++ " (" ++ sampleRecA.courseCode ++ ")",
            sampleRecA.parentName, sampleRecA.parentPhone, id sampleRecA.date] :=
  ⟨(C6_csv_rows id [sampleRecA]).1,
   (C6_csv_rows id [sampleRecA]).2.2 0 sampleRecA rfl⟩

/-- The state of the `StudentAbsenteeHours` component that determines
which of its three top-level views is rendered. -/
structure AbsenteeHoursState where
  loading : Bool
  error : Option String
  absenteeHours : List StudentAbsenteeHours
deriving DecidableEq, Repr

/-- The three top-level views the component can return. -/
inductive ComponentView where
  | loadingView
  | errorView
  | dataView
deriving DecidableEq, Repr

/-- The render branch of `StudentAbsenteeHours`: the loading spinner if
`loading`, else the error banner (which carries the Try Again button) if
`error` is set, else the data table. -/
def selectAbsenteeHoursView (st : AbsenteeHoursState) : ComponentView :=
  if st.loading then .loadingView
  else if st.error.isSome then .errorView
  else .dataView

/-- The catch branch of `loadAbsenteeHours` together with the `finally`:
the error message is always set, the cached data (when some) replaces
`absenteeHours`, and loading ends. -/
def absenteeHoursFailure (cached : Option (List StudentAbsenteeHours))
    (st : AbsenteeHoursState) : AbsenteeHoursState :=
  { loading := false
    error := some "Failed to load absentee hours data. Please try again."
    absenteeHours :=
      match cached with
      | some d => d
      | none => st.absenteeHours }

/-- The inner catch of `loadAbsenteeReport` in the Reports page: on API
failure the report data comes from the cached rollcall absentee records,
or an empty list when the cache is empty; no error is raised. -/
def reportsApiFallback (cached : Option (List AbsenteeRecord)) : List AbsenteeRecord :=
  match cached with
  | some d => d
  | none => []

/-- The initial state of the `StudentAbsenteeHours` component. -/
def initialAbsenteeHoursState : AbsenteeHoursState :=
  { loading := false, error := none, absenteeHours := [] }

/-- A sample cached per-student aggregate used by the counterexample. -/
def sampleCachedEntry : StudentAbsenteeHours :=
  { studentId := "s1", studentName := "Ana", matricule := "M1", field := "CS",
    level := "L100", totalAbsentHours := some 2,
    absentSessions := [⟨"2024-01-08", "Algo", "CS101", some 2, none⟩] }

/-- C7 counterexample.  After an API failure with a cached entry
present, the component renders the error view, not the data view: the
claim that cached data is displayed, with a banner only when no cache is
present, fails at this input. -/
theorem C7_counterexample :
    selectAbsenteeHoursView
        (absenteeHoursFailure (some [sampleCachedEntry]) initialAbsenteeHoursState) =
      ComponentView.errorView ∧
    ComponentView.errorView ≠ ComponentView.dataView :=
  ⟨rfl, by decide⟩

/-- C7 as amended.  On API failure the `StudentAbsenteeHours` component
loads cached data into state when present but always sets the error, so
the error banner with its manual Try Again button is rendered whether or
not a cache entry exists; the Reports page falls back to the cached
rollcall records (or an empty list) without setting an error. -/
theorem C7_failure_fallback (cached : Option (List StudentAbsenteeHours))
    (st : AbsenteeHoursState) :
    (absenteeHoursFailure cached st).error =
      some "Failed to load absentee hours data. Please try again." ∧
    selectAbsenteeHoursView (absenteeHoursFailure cached st) = ComponentView.errorView ∧
    (∀ d : List StudentAbsenteeHours, cached = some d →
      (absenteeHoursFailure cached st).absenteeHours = d) ∧
    (cached = none → (absenteeHoursFailure cached st).absenteeHours = st.absenteeHours) ∧
    (∀ cachedRecords : Option (List AbsenteeRecord),
      reportsApiFallback cachedRecords = cachedRecords.getD []) := by
  refine ⟨rfl, rfl, fun d hd => ?_, fun hn => ?_, fun cr => ?_⟩
  · subst hd; rfl
  · subst hn; rfl
  · cases cr <;> rfl

/-- Witness for C7 as amended, at a present cache entry and at an empty
cache. -/
theorem C7_failure_fallback_witness :
    (absenteeHoursFailure (some [sampleCachedEntry])
        initialAbsenteeHoursState).absenteeHours = [sampleCachedEntry] ∧
    (absenteeHoursFailure none initialAbsenteeHoursState).absenteeHours =
      initialAbsenteeHoursState.absenteeHours ∧
    reportsApiFallback none = (none : Option (List AbsenteeRecord)).getD [] ∧
    reportsApiFallback none = [] :=
  ⟨(C7_failure_fallback (some [sampleCachedEntry]) initialAbsenteeHoursState).2.2.1
      [sampleCachedEntry] rfl,
   (C7_failure_fallback none initialAbsenteeHoursState).2.2.2.1 rfl,
   by exact rfl,
   rfl⟩

/-- The date filter of `loadAbsenteeReport`: `tm` models the JavaScript
time value (milliseconds) of a date string, `fromDayStart` the value of
`new Date(dateFrom)` (midnight of the from-day), `toDayStart` that of
`new Date(dateTo)` before `setHours(23, 59, 59, 999)` pushes it to the
last millisecond of the to-day. -/
def dateFilterReports (tm : String → ℤ) (fromDayStart toDayStart : ℤ)
    (records : List AbsenteeRecord) : List AbsenteeRecord :=
  let toDateMs := toDayStart + 86399999
  records.filter fun r => decide (fromDayStart ≤ tm r.date) && decide (tm r.date ≤ toDateMs)

/-- C9.  The date filter is inclusive at both ends: a record is kept iff
its time is at or after midnight of the from-day and strictly before
midnight of the day after the to-day, i.e. any time during the to-day
(which `setHours(23, 59, 59, 999)` extends to its last millisecond) is
included. -/
theorem C9_date_filter_inclusive (tm : String → ℤ) (fromDayStart toDayStart : ℤ)
    (records : List AbsenteeRecord) (r : AbsenteeRecord) :
    r ∈ dateFilterReports tm fromDayStart toDayStart records ↔
      r ∈ records ∧ fromDayStart ≤ tm r.date ∧ tm r.date < toDayStart + 86400000 := by
  simp only [dateFilterReports, List.mem_filter, Bool.and_eq_true, decide_eq_true_eq]
  constructor
  · rintro ⟨hm, hle, hup⟩
    exact ⟨hm, hle, by omega⟩
  · rintro ⟨hm, hle, hup⟩
    exact ⟨hm, hle, by omega⟩

/-- One output entry of `getGroupedAbsentees`. -/
structure FieldGroup where
  fieldName : String
  records : List AbsenteeRecord
  count : ℕ
deriving DecidableEq, Repr

/-- One step of the `reduce` in `getGroupedAbsentees`: push the record
onto its field's list, creating the entry when the key is new.  The
accumulator is the JS object as an association list in key insertion
order (field names are not integer-like, so JS preserves that order). -/
def insertGrouped (acc : List (String × List AbsenteeRecord)) (r : AbsenteeRecord) :
    List (String × List AbsenteeRecord) :=
  if acc.any (fun p => p.1 == r.fieldName) then
    acc.map (fun p => if p.1 == r.fieldName then (p.1, p.2 ++ [r]) else p)
  else
    acc ++ [(r.fieldName, [r])]

/-- The list stored under key `k`, or `[]` when the key is absent. -/
def lookupGroup (acc : List (String × List AbsenteeRecord)) (k : String) :
    List AbsenteeRecord :=
  match acc.find? (fun p => p.1 == k) with
  | some p => p.2
  | none => []

/-- `getGroupedAbsentees` from the Reports page: reduce the filtered
absentees into per-field lists, then turn each entry into a group with
its record count. -/
def getGroupedAbsentees (absentees : List AbsenteeRecord) : List FieldGroup :=
  (absentees.foldl insertGrouped []).map fun p => ⟨p.1, p.2, p.2.length⟩

/-- Inserting a record keeps the key list, or appends the new key. -/
theorem keys_insertGrouped (acc : List (String × List AbsenteeRecord)) (r : AbsenteeRecord) :
    (insertGrouped acc r).map Prod.fst =
      if acc.any (fun p => p.1 == r.fieldName) then acc.map Prod.fst
      else acc.map Prod.fst ++ [r.fieldName] := by
  unfold insertGrouped
  split
  · rw [List.map_map]
    exact List.map_congr_left fun p _ => by
      simp only [Function.comp_apply]
      split <;> rfl
  · simp

/-- A key is in the inserted accumulator iff it was there already or it
is the new record's field. -/
theorem mem_keys_insertGrouped (acc : List (String × List AbsenteeRecord))
    (r : AbsenteeRecord) (k : String) :
    k ∈ (insertGrouped acc r).map Prod.fst ↔
      k ∈ acc.map Prod.fst ∨ k = r.fieldName := by
  rw [keys_insertGrouped]
  split
  · next hany =>
    simp only [List.any_eq_true, beq_iff_eq] at hany
    obtain ⟨p, hp, hpk⟩ := hany
    constructor
    · exact Or.inl
    · rintro (h | rfl)
      · exact h
      · exact hpk ▸ List.mem_map_of_mem Prod.fst hp
  · simp

/-- Insertion preserves distinctness of the keys. -/
theorem nodup_keys_insertGrouped (acc : List (String × List AbsenteeRecord))
    (r : AbsenteeRecord) (hnd : (acc.map Prod.fst).Nodup) :
    ((insertGrouped acc r).map Prod.fst).Nodup := by
  rw [keys_insertGrouped]
  split
  · exact hnd
  · next hany =>
    rw [List.nodup_append]
    refine ⟨hnd, List.nodup_singleton _, ?_⟩
    intro k hk hk1
    rw [List.mem_singleton] at hk1
    subst hk1
    apply hany
    simp only [List.mem_map] at hk
    obtain ⟨p, hp, hpk⟩ := hk
    exact List.any_eq_true.mpr ⟨p, hp, by simp [hpk]⟩

/-- `find?` by key commutes with the value-updating map of
`insertGrouped`, because the update keeps every key. -/
theorem find_map_update (acc : List (String × List AbsenteeRecord))
    (r : AbsenteeRecord) (k : String) :
    (acc.map fun p => if p.1 == r.fieldName then (p.1, p.2 ++ [r]) else p).find?
        (fun p => p.1 == k) =
      (acc.find? (fun p => p.1 == k)).map
        (fun p => if p.1 == r.fieldName then (p.1, p.2 ++ [r]) else p) := by
  induction acc with
  | nil => rfl
  | cons a l ih =>
    have hfst : ((if a.1 == r.fieldName then (a.1, a.2 ++ [r]) else a).1 == k) = (a.1 == k) := by
      by_cases h : a.1 == r.fieldName <;> simp [h]
    by_cases h : a.1 == k
    · simp only [List.map_cons, List.find?_cons, hfst, h]
      rfl
    · simp only [List.map_cons, List.find?_cons, hfst,
        Bool.not_eq_true] at h ⊢
      rw [h]
      simpa using ih

/-- `find?` distributes over an appended singleton. -/
theorem find_append_single (acc : List (String × List AbsenteeRecord))
    (x : String × List AbsenteeRecord) (p : String × List AbsenteeRecord → Bool) :
    (acc ++ [x]).find? p =
      match acc.find? p with
      | some q => some q
      | none => [x].find? p := by
  induction acc with
  | nil => rfl
  | cons a l ih =>
    by_cases h : p a
    · simp [List.find?_cons, h]
    · rw [Bool.not_eq_true] at h
      simp only [List.cons_append, List.find?_cons, h]
      exact ih

/-- One insertion appends the record to exactly its own key's list. -/
theorem lookupGroup_insertGrouped (acc : List (String × List AbsenteeRecord))
    (r : AbsenteeRecord) (k : String) :
    lookupGroup (insertGrouped acc r) k =
      lookupGroup acc k ++ if r.fieldName == k then [r] else [] := by
  unfold insertGrouped
  split
  · next hany =>
    unfold lookupGroup
    rw [find_map_update]
    cases hf : acc.find? (fun p => p.1 == k) with
    | none =>
      have : ¬(r.fieldName == k) = true := by
        intro hbeq
        rw [beq_iff_eq] at hbeq
        subst hbeq
        obtain ⟨p, hp, hpk⟩ := List.any_eq_true.mp hany
        have := List.find?_eq_none.mp hf p hp
        exact this hpk
      simp [this]
    | some p =>
      have hpk0 := List.find?_some hf
      simp only [beq_iff_eq] at hpk0
      have hpk : p.1 = k := hpk0
      by_cases hbeq : r.fieldName == k
      · have hbeq2 : r.fieldName = k := by rwa [beq_iff_eq] at hbeq
        have hpr : p.1 = r.fieldName := by rw [hpk, hbeq2]
        simp [hpr, hbeq]
      · have hbeq2 : ¬r.fieldName = k := by
          intro hk
          exact hbeq (by rw [beq_iff_eq]; exact hk)
        have hpr : ¬p.1 = r.fieldName := by
          rw [hpk]
          exact fun hk => hbeq2 hk.symm
        rw [Bool.not_eq_true] at hbeq
        simp [hpr, hbeq]
  · next hany =>
    unfold lookupGroup
    rw [find_append_single]
    cases hf : acc.find? (fun p => p.1 == k) with
    | none =>
      by_cases hbeq : r.fieldName == k
      · simp [List.find?_cons, hbeq]
      · rw [Bool.not_eq_true] at hbeq
        simp [List.find?_cons, hbeq]
    | some p =>
      have hpk0 := List.find?_some hf
      simp only [beq_iff_eq] at hpk0
      have hpk : p.1 = k := hpk0
      have : ¬(r.fieldName == k) = true := by
        intro hbeq
        rw [beq_iff_eq] at hbeq
        apply hany
        exact List.any_eq_true.mpr ⟨p, List.mem_of_find?_eq_some hf, by simp [hpk, hbeq]⟩
      simp [this]

/-- The reduce of `getGroupedAbsentees`: keys stay distinct, the final
keys are the initial ones plus the encountered field names, and each
key's list grows by exactly the records with that field name, in input
order. -/
theorem foldl_insertGrouped_spec (l : List AbsenteeRecord) :
    ∀ acc : List (String × List AbsenteeRecord), (acc.map Prod.fst).Nodup →
      ((l.foldl insertGrouped acc).map Prod.fst).Nodup ∧
      (∀ k, k ∈ (l.foldl insertGrouped acc).map Prod.fst ↔
        k ∈ acc.map Prod.fst ∨ k ∈ l.map (fun r => r.fieldName)) ∧
      (∀ k, lookupGroup (l.foldl insertGrouped acc) k =
        lookupGroup acc k ++ l.filter (fun r => r.fieldName == k)) := by
  induction l with
  | nil =>
    intro acc hnd
    exact ⟨hnd, fun k => by simp, fun k => by simp⟩
  | cons r l ih =>
    intro acc hnd
    obtain ⟨nd, hkeys, hlook⟩ := ih (insertGrouped acc r) (nodup_keys_insertGrouped acc r hnd)
    refine ⟨nd, fun k => ?_, fun k => ?_⟩
    · rw [List.foldl_cons, hkeys, mem_keys_insertGrouped]
      simp only [List.map_cons, List.mem_cons]
      tauto
    · rw [List.foldl_cons, hlook, lookupGroup_insertGrouped, List.filter_cons]
      by_cases hbeq : r.fieldName == k
      · simp [hbeq, List.append_assoc]
      · rw [Bool.not_eq_true] at hbeq
        simp [hbeq]

/-- With distinct keys, a member entry is what `find?` by its key
returns. -/
theorem find_self_of_mem (res : List (String × List AbsenteeRecord))
    (hnd : (res.map Prod.fst).Nodup) (p : String × List AbsenteeRecord) (hp : p ∈ res) :
    res.find? (fun q => q.1 == p.1) = some p := by
  induction res with
  | nil => cases hp
  | cons a l ih =>
    rw [List.map_cons, List.nodup_cons] at hnd
    rcases List.mem_cons.mp hp with rfl | hpl
    · simp [List.find?_cons]
    · have hne : ¬(a.1 == p.1) = true := by
        rw [beq_iff_eq]
        intro h
        exact hnd.1 (h ▸ List.mem_map_of_mem Prod.fst hpl)
      rw [Bool.not_eq_true] at hne
      simp only [List.find?_cons, hne]
      exact ih hnd.2 hpl

/-- Sums of pointwise sums of two maps split. -/
theorem sum_map_add_split (ks : List String) (f g : String → ℕ) :
    (ks.map fun k => f k + g k).sum = (ks.map f).sum + (ks.map g).sum := by
  induction ks with
  | nil => rfl
  | cons k ks ih =>
    simp only [List.map_cons, List.sum_cons, ih]
    omega

/-- An indicator sums to zero over a list avoiding its value. -/
theorem sum_indicator_not_mem (ks : List String) (a : String) (h : a ∉ ks) :
    (ks.map fun k => if a = k then 1 else 0).sum = 0 := by
  induction ks with
  | nil => rfl
  | cons k ks ih =>
    have hne : ¬a = k := by
      rintro rfl
      exact h (List.mem_cons_self _ _)
    have hz := ih fun hm => h (List.mem_cons_of_mem _ hm)
    simp [hne, hz]

/-- An indicator sums to one over a duplicate-free list containing its
value. -/
theorem sum_indicator_mem (ks : List String) (a : String) (hnd : ks.Nodup) (h : a ∈ ks) :
    (ks.map fun k => if a = k then 1 else 0).sum = 1 := by
  induction ks with
  | nil => cases h
  | cons k ks ih =>
    rw [List.nodup_cons] at hnd
    rcases List.mem_cons.mp h with rfl | hm
    · have hz := sum_indicator_not_mem ks a hnd.1
      simp [hz]
    · have hne : ¬a = k := by
        rintro rfl
        exact hnd.1 hm
      have h1 := ih hnd.2 hm
      simp [hne, h1]

/-- Filter lengths over a duplicate-free covering key list sum to the
whole length. -/
theorem sum_filter_lengths (ks : List String) (hnd : ks.Nodup) :
    ∀ l : List AbsenteeRecord, (∀ r ∈ l, r.fieldName ∈ ks) →
      (ks.map fun k => (l.filter fun r => r.fieldName == k).length).sum = l.length := by
  intro l
  induction l with
  | nil =>
    intro _
    simp
  | cons r l ih =>
    intro hcov
    have h1 : ∀ k ∈ ks, ((r :: l).filter fun x => x.fieldName == k).length
        = (if r.fieldName = k then 1 else 0) + (l.filter fun x => x.fieldName == k).length := by
      intro k _
      by_cases h : r.fieldName = k
      · simp [List.filter_cons, h]
        omega
      · simp [List.filter_cons, h]
    rw [List.map_congr_left h1, sum_map_add_split,
      sum_indicator_mem ks r.fieldName hnd (hcov r (List.mem_cons_self r l)),
      ih (fun x hx => hcov x (List.mem_cons_of_mem r hx))]
    simp [List.length_cons]
    omega

/-- C10.  `getGroupedAbsentees` partitions the filtered list by field
name: each group's records are exactly the input records with that field
name in their input order, its count is that list's length, group field
names are pairwise distinct, every record's field has a group, and the
group counts sum to the number of filtered records. -/
theorem C10_grouping_partitions (l : List AbsenteeRecord) :
    (∀ g ∈ getGroupedAbsentees l, g.records = l.filter fun r => r.fieldName == g.fieldName) ∧
    (∀ g ∈ getGroupedAbsentees l, g.count = g.records.length) ∧
    ((getGroupedAbsentees l).map FieldGroup.fieldName).Nodup ∧
    (∀ r ∈ l, ∃ g ∈ getGroupedAbsentees l, g.fieldName = r.fieldName) ∧
    ((getGroupedAbsentees l).map FieldGroup.count).sum = l.length := by
  obtain ⟨hnd, hkeys, hlook⟩ := foldl_insertGrouped_spec l [] (by simp)
  have hlook' : ∀ k, lookupGroup (l.foldl insertGrouped []) k =
      l.filter (fun r => r.fieldName == k) := by
    intro k
    have := hlook k
    rwa [show lookupGroup [] k = [] from rfl, List.nil_append] at this
  have hrec : ∀ p ∈ l.foldl insertGrouped [], p.2 = l.filter (fun r => r.fieldName == p.1) := by
    intro p hp
    have hfind := find_self_of_mem (l.foldl insertGrouped []) hnd p hp
    have := hlook' p.1
    rwa [lookupGroup, hfind] at this
  have hkeys' : ∀ k, k ∈ (l.foldl insertGrouped []).map Prod.fst ↔
      k ∈ l.map (fun r => r.fieldName) := by
    intro k
    rw [hkeys k]
    simp
  refine ⟨?_, ?_, ?_, ?_, ?_⟩
  · intro g hg
    obtain ⟨p, hp, rfl⟩ := List.mem_map.mp hg
    exact hrec p hp
  · intro g hg
    obtain ⟨p, hp, rfl⟩ := List.mem_map.mp hg
    rfl
  · have : (getGroupedAbsentees l).map FieldGroup.fieldName =
        (l.foldl insertGrouped []).map Prod.fst := by
      rw [getGroupedAbsentees, List.map_map]
      rfl
    rw [this]
    exact hnd
  · intro r hr
    have : r.fieldName ∈ (l.foldl insertGrouped []).map Prod.fst :=
      (hkeys' r.fieldName).mpr (List.mem_map_of_mem _ hr)
    obtain ⟨p, hp, hpk⟩ := List.mem_map.mp this
    exact ⟨⟨p.1, p.2, p.2.length⟩, List.mem_map_of_mem _ hp, hpk⟩
  · have hmap : (getGroupedAbsentees l).map FieldGroup.count =
        ((l.foldl insertGrouped []).map Prod.fst).map
          (fun k => (l.filter fun r => r.fieldName == k).length) := by
      rw [getGroupedAbsentees, List.map_map, List.map_map]
      exact List.map_congr_left fun p hp => by
        simp only [Function.comp]
        rw [hrec p hp]
    rw [hmap]
    exact sum_filter_lengths _ hnd _
      (fun r hr => (hkeys' r.fieldName).mpr (List.mem_map_of_mem _ hr))

/-- Witness for C10 on a three-record list over two fields. -/
theorem C10_grouping_partitions_witness :
    ((getGroupedAbsentees [sampleRecA, sampleRecB, sampleRecA]).map FieldGroup.count).sum = 3 ∧
    (∃ g ∈ getGroupedAbsentees [sampleRecA, sampleRecB, sampleRecA],
      g.fieldName = sampleRecA.fieldName) := by
  obtain ⟨hgr, hcnt, hnd, hcov, hsum⟩ :=
    C10_grouping_partitions [sampleRecA, sampleRecB, sampleRecA]
  exact ⟨hsum, hcov sampleRecA (List.mem_cons_self _ _)⟩

end RollCall
